import Mathlib

set_option maxRecDepth 4000

/-!
Verification of the measurement-loop scripts of the IPL2 lab-automation
repository.  Voltages are embedded as rationals; each script's reducer and
control flow is translated into an executable Lean definition, and the
spec's testable properties are proved about those definitions.  The vendor
driver is an opaque collaborator: the scripts are modelled by the sequences
of driver commands and events they issue, and by the state those commands
leave the instrument in.
-/

/-! # Definitions -/

/-! ## PC2/PC2.py — DC voltage-divider resistance sweep -/

namespace PC2

/-- Reference resistor, from `R_REF = 10000.0` in PC2/PC2.py. -/
def R_REF : ℚ := 10000

/-- Sweep set-points, from `W1_VOLTAGES = [3.3/8, 3.3/4, 3.3/2, 3.3]`. -/
def W1_VOLTAGES : List ℚ := [33/10/8, 33/10/4, 33/10/2, 33/10]

/-- Samples taken per set-point, from `N_SAMPLES = 1000`. -/
def N_SAMPLES : Nat := 1000

/-- One sample of the inner loop of `measure_resistance_for_all_voltages`
(PC2/PC2.py lines 81–83): the guard `vin > v_out and v_out > 0` and the
reduction `resistance = R_REF * (v_out / (vin - v_out))`.  A sample failing
the guard contributes no resistance value. -/
def measure_sample (rref vin vout : ℚ) : Option ℚ :=
  if vin > vout ∧ vout > 0 then some (rref * (vout / (vin - vout))) else none

/-- The per-set-point sampling loop: each scope reading that passes the
guard appends a resistance to `measured_resistances`; failing readings are
skipped and the loop continues. -/
def measure_samples (rref vin : ℚ) (readings : List ℚ) : List ℚ :=
  readings.filterMap (measure_sample rref vin)

/-- `measure_resistance_for_all_voltages` (PC2/PC2.py lines 56–90): iterate
over `W1_VOLTAGES` in order, and store each set-point's list of measured
resistances keyed by the set-point (the Python dict `all_results`, whose
keys appear in insertion order).  The environment `env` supplies the scope
readings observed at each set-point. -/
def measure_resistance_for_all_voltages (rref : ℚ) (env : ℚ → List ℚ) :
    List (ℚ × List ℚ) :=
  W1_VOLTAGES.map (fun vin => (vin, measure_samples rref vin (env vin)))

end PC2

/-! ## module1/min_1.py — AC voltage-divider resistance -/

namespace Min1

/-- Reference resistor, from `R_REF = 1000.0` in module1/min_1.py. -/
def R_REF : ℚ := 1000

/-- The divider reduction of `measure_resistance` (module1/min_1.py lines
118–123) as a function of the two RMS voltages: the guard
`v_ref_rms = vin_rms - vx_rms <= 0` aborts with `None`, otherwise
`calculated_resistance = R_REF * (vx_rms / v_ref_rms)`. -/
def measure_resistance (rref vin_rms vx_rms : ℚ) : Option ℚ :=
  if vin_rms - vx_rms ≤ 0 then none
  else some (rref * (vx_rms / (vin_rms - vx_rms)))

/-- The stage of `measure_resistance` at which a `KeyboardInterrupt` can be
injected: during the status-polling loop (lines 94–99) or the buffer reads
(lines 102–103). -/
inductive Stage where
  | polling
  | reading
deriving DecidableEq

/-- Exit behaviour of `measure_resistance` (module1/min_1.py lines
127–132) against a user interruption: the `except KeyboardInterrupt`
handler returns the failure triple `(None, None, None)` (modelled as
`none`), and the `finally` block closes the device on every path (the
second component).  Without an interruption the computed resistance is
returned. -/
def measure_resistance_exit (interrupt : Option Stage) (result : Option ℚ) :
    Option ℚ × Bool :=
  match interrupt with
  | none => (result, true)
  | some _ => (none, true)

end Min1

/-! ## The mean / standard-deviation reducer (PC2/250916PC2.py
`plot_histogram` lines 97–99, PC2/PC2.py `plot_histograms_subplot`
lines 116–118): `np.mean(data)` and `np.std(data, ddof=1)`. -/

/-- `np.mean`: the arithmetic mean, sum divided by length. -/
def np_mean (l : List ℚ) : ℚ := l.sum / l.length

/-- The squared deviations from the mean used by `np.std`. -/
def sq_devs (l : List ℚ) : List ℚ := l.map (fun x => (x - np_mean l) ^ 2)

/-- `np.std(·, ddof=1)` squared: the Bessel-corrected sample variance, the
sum of squared deviations from the mean divided by `n - ddof = n - 1`. -/
def np_var_ddof1 (l : List ℚ) : ℚ := (sq_devs l).sum / ((l.length : ℚ) - 1)

/-! ## Current through a sense resistor (PC3/diode_character_test.py
lines 104–106: `i_led = (v_in - v_led) / R_LIMIT`; PC3_test_min.py
lines 124–125: `current_amperes = (v_source - v_capacitor) /
R_SENSE_OHMS`), element-wise over the two channel buffers. -/

/-- The sense-resistor current reducer `I = (V_a - V_b) / R_sense`,
element-wise over two sample buffers. -/
def sense_current (r : ℚ) : List ℚ → List ℚ → List ℚ
  | a :: va, b :: vb => (a - b) / r :: sense_current r va vb
  | _, _ => []

/-! ## PC3/diode_character_test.py — LED I-V curve -/

namespace Diode

/-- Current-limit resistor, from `R_LIMIT = 100.0`. -/
def R_LIMIT : ℚ := 100

/-- `BUFFER_SIZE = int(SAMPLING_FREQ * SWEEP_TIME) = int(10000.0 * 5.0)`. -/
def BUFFER_SIZE : Nat := 50000

/-- The Python slice `x[100:-100]`: drop the first 100 and last 100
samples, keeping the middle in order. -/
def trim (l : List ℚ) : List ℚ := (l.drop 100).take (l.length - 200)

/-- `measure_led_iv_curve` (PC3/diode_character_test.py lines 95–109),
reduced to its data processing: from the two acquired buffers, the LED
current is `(v_in - v_led) / R_LIMIT` element-wise, and both returned
arrays are trimmed by 100 samples at each end. -/
def measure_led_iv_curve (v_led v_in : List ℚ) : List ℚ × List ℚ :=
  (trim v_led, trim (sense_current R_LIMIT v_in v_led))

end Diode

/-! ## PC3_test_min.py — RC decay-start detection and interrupt exit -/

namespace PC3min

/-- The empirical decay-start ratio threshold `1.000005`. -/
def DECAY_THRESHOLD : ℚ := 1000005 / 1000000

/-- The loop's break condition at index `i` (`plot_results`, line 143):
`v_source[i] / v_source[i+1] > 1.000005`. -/
def decay_hit (v : List ℚ) (i : Nat) : Prop :=
  v.getD i 0 / v.getD (i + 1) 0 > DECAY_THRESHOLD

instance decay_hit_dec (v : List ℚ) (i : Nat) : Decidable (decay_hit v i) :=
  inferInstanceAs (Decidable (_ < _))

/-- The scan of the Python `for` loop (lines 142–144): try `n` successive
indices starting at `i`, stopping at the first index whose ratio exceeds
the threshold. -/
def decay_find_aux (v : List ℚ) : Nat → Nat → Option Nat
  | _, 0 => none
  | i, n + 1 =>
    if decay_hit v i then some i else decay_find_aux v (i + 1) n

/-- The detected decay-start index: the first `i` in `range(len(v)-1)`
whose ratio exceeds the threshold; when the loop never breaks, Python
leaves the loop variable at its last value `len(v) - 2`, and when
`len(v) < 2` the loop never runs and `i` stays unbound (a NameError at the
fit call), modelled as `none`. -/
def decay_start (v : List ℚ) : Option Nat :=
  if v.length < 2 then none
  else some ((decay_find_aux v 0 (v.length - 1)).getD (v.length - 2))

/-- The stage of `measure_rc_circuit` at which a `KeyboardInterrupt` can
be injected: after arming (line 107), during the status-polling loop
(lines 110–114), or during the buffer reads and reduction (lines
119–128), all of which precede the assignment of the local `tmp`. -/
inductive RcStage where
  | armed
  | polling
  | reading
deriving DecidableEq

/-- The outcome of a Python function call: a returned value or a raised
exception. -/
inductive PyExit where
  | ret (fit : Option (ℚ × ℚ))
  | exc (nm : String)
deriving DecidableEq

/-- Exit behaviour of `measure_rc_circuit` (PC3_test_min.py lines 69–135).
The local `tmp` is assigned only at line 128, after the acquisition and
`plot_results` complete.  On a `KeyboardInterrupt` in the armed, polling
or reading stages, the `except KeyboardInterrupt` handler (lines 130–131)
catches it, then the `finally` block (lines 132–135) closes the device and
executes `return tmp` — whose read of the never-assigned local raises
`UnboundLocalError` out of the function.  On normal completion `tmp` holds
the fit parameters and `return tmp` returns them.  The second component
records that `FDwfDeviceCloseAll` (line 133) ran, which the `finally`
guarantees on every path. -/
def measure_rc_circuit_exit (interrupt : Option RcStage) (fit : ℚ × ℚ) :
    PyExit × Bool :=
  match interrupt with
  | none => (PyExit.ret (some fit), true)
  | some _ => (PyExit.exc "UnboundLocalError", true)

end PC3min

/-! ## The buffered/triggered acquisition discipline (PC3/
diode_character_test.py lines 86–98, module1/min_1.py lines 94–103):
`while True: status(); if done: break; sleep` followed by the buffer
reads.  The run is modelled as the sequence of driver events it issues;
the status replies are supplied by the environment `statusSeq`, and `fuel`
bounds the number of polls observed. -/

/-- An observable driver event of the acquisition loop. -/
inductive DwfEvent where
  | statusPoll (done : Bool)
  | bufferRead (ch : Nat)
deriving DecidableEq

/-- The polling loop: poll the status at each step; stop with a `true`
poll event once the environment reports the terminal done state.  Returns
the events issued and whether done was reached within `fuel` polls. -/
def poll_until_done (statusSeq : Nat → Bool) : Nat → Nat → List DwfEvent × Bool
  | _, 0 => ([], false)
  | k, n + 1 =>
    if statusSeq k then ([DwfEvent.statusPoll true], true)
    else (DwfEvent.statusPoll false :: (poll_until_done statusSeq (k + 1) n).1,
      (poll_until_done statusSeq (k + 1) n).2)

/-- The events of one buffered acquisition: the polling loop, then — only
after the loop has exited on the done state — one buffer read per channel
(`FDwfAnalogInStatusData` for channels 0 and 1). -/
def acquisition_trace (statusSeq : Nat → Bool) (fuel : Nat) : List DwfEvent :=
  (poll_until_done statusSeq 0 fuel).1 ++
    (if (poll_until_done statusSeq 0 fuel).2 then
      [DwfEvent.bufferRead 0, DwfEvent.bufferRead 1]
    else [])

/-! ## The commanded instrument state across exit paths.  Each script is
modelled by the list of driver commands it issues; only the commands that
change the tracked safe-idle state are distinguished, every other driver
call (function/offset/range/frequency settings, status polls, sample and
buffer reads) is `other`. -/

/-- A driver command, as far as the commanded idle state is concerned. -/
inductive DwfCmd where
  | analogOutEnable (b : Bool)
  | analogOutConfigure (start : Bool)
  | analogIOEnable (b : Bool)
  | deviceCloseAll
  | other
deriving DecidableEq

/-- The commanded instrument state: whether the stimulus output has been
started, whether the supply rails are enabled, and whether the device
handle is open. -/
structure DeviceState where
  outputRunning : Bool
  supplyOn : Bool
  handleOpen : Bool
deriving DecidableEq

/-- The effect of one driver command on the commanded state:
`FDwfAnalogOutConfigure(hdwf, ch, start)` starts or stops the stimulus
output, `FDwfAnalogIOEnableSet` turns the supply rails on or off, and
`FDwfDeviceCloseAll` releases the handle. -/
def stepCmd (s : DeviceState) : DwfCmd → DeviceState
  | DwfCmd.analogOutConfigure b => { s with outputRunning := b }
  | DwfCmd.analogIOEnable b => { s with supplyOn := b }
  | DwfCmd.deviceCloseAll => { s with handleOpen := false }
  | _ => s

/-- Run a command list from a state. -/
def runCmds (s : DeviceState) (l : List DwfCmd) : DeviceState :=
  l.foldl stepCmd s

/-- `n` repetitions of a command block. -/
def cmd_blocks (c : List DwfCmd) : Nat → List DwfCmd
  | 0 => []
  | n + 1 => c ++ cmd_blocks c n

/-- The state right after `FDwfDeviceOpen` succeeds: handle open, nothing
commanded on yet. -/
def initState : DeviceState := ⟨false, false, true⟩

namespace PC2

/-- The per-set-point configuration commands of
`measure_resistance_for_all_voltages` (PC2/PC2.py lines 61–72):
`AnalogOutNodeEnableSet(True)`, `AnalogOutNodeFunctionSet`,
`AnalogOutNodeOffsetSet`, `AnalogOutConfigure(True)`,
`AnalogInChannelEnableSet`, `AnalogInChannelRangeSet`,
`AnalogInConfigure(False, False)`. -/
def config_cmds : List DwfCmd :=
  [DwfCmd.analogOutEnable true, DwfCmd.other, DwfCmd.other,
    DwfCmd.analogOutConfigure true, DwfCmd.other, DwfCmd.other,
    DwfCmd.other]

/-- The sampling commands for `n` samples (lines 75–78): each sample is an
`AnalogInStatus` poll and an `AnalogInStatusSample` read, neither of which
changes the commanded state. -/
def sample_cmds (n : Nat) : List DwfCmd := List.replicate (2 * n) DwfCmd.other

/-- The full command trace of one run of
`measure_resistance_for_all_voltages`.  `none` is the normal completion of
all four set-points; `some (k, j)` is a `KeyboardInterrupt` injected while
sampling (the armed/polling/reading stages) at set-point `k`, after `j`
samples — the `finally` block (lines 95–97) closes the device on every
path, and nothing else is issued on the way out. -/
def run_cmds (interrupt : Option (Nat × Nat)) : List DwfCmd :=
  match interrupt with
  | none =>
    cmd_blocks (config_cmds ++ sample_cmds N_SAMPLES) W1_VOLTAGES.length ++
      [DwfCmd.deviceCloseAll]
  | some (k, j) =>
    cmd_blocks (config_cmds ++ sample_cmds N_SAMPLES) k ++ config_cmds ++
      sample_cmds j ++ [DwfCmd.deviceCloseAll]

/-- The commanded instrument state after the run exits. -/
def final_state (interrupt : Option (Nat × Nat)) : DeviceState :=
  runCmds initState (run_cmds interrupt)

end PC2

/-! ## PC5/opamp.py — op-amp transfer curve -/

namespace Opamp

/-- Sweep steps, from `SWEEP_STEPS = 101`. -/
def SWEEP_STEPS : Nat := 101

/-- The setup commands of `get_amplifier_transfer_curve` (PC5/opamp.py
lines 74–108): the four supply-node settings, `AnalogIOEnableSet(True)`,
`AnalogOutNodeEnableSet(True)` for W1 plus its function setting and the
W2 disable, and the scope/acquisition configuration. -/
def setup_cmds : List DwfCmd :=
  [DwfCmd.other, DwfCmd.other, DwfCmd.other, DwfCmd.other,
    DwfCmd.analogIOEnable true,
    DwfCmd.analogOutEnable true, DwfCmd.other, DwfCmd.other,
    DwfCmd.other, DwfCmd.other, DwfCmd.other, DwfCmd.other,
    DwfCmd.other, DwfCmd.other]

/-- One sweep step (lines 114–142): `AnalogOutNodeOffsetSet`,
`AnalogOutConfigure(True)`, `AnalogInConfigure`, the status polls, and
the two buffer reads; only the output start changes the commanded
state. -/
def step_cmds : List DwfCmd :=
  [DwfCmd.other, DwfCmd.analogOutConfigure true, DwfCmd.other,
    DwfCmd.other, DwfCmd.other, DwfCmd.other]

/-- The `finally` block (lines 149–154): `AnalogOutConfigure(0, False)`
stops W1, `AnalogIOEnableSet(False)` turns the supplies off, and
`FDwfDeviceCloseAll` releases the handle. -/
def cleanup_cmds : List DwfCmd :=
  [DwfCmd.analogOutConfigure false, DwfCmd.analogIOEnable false,
    DwfCmd.deviceCloseAll]

/-- The full command trace of one run of `get_amplifier_transfer_curve`.
`none` is the normal completion of all sweep steps; `some (k, m)` is an
exception injected within step `k` after `m` of its commands (covering the
armed, polling and reading stages).  The `finally` block runs on every
path. -/
def run_cmds (interrupt : Option (Nat × Nat)) : List DwfCmd :=
  match interrupt with
  | none => setup_cmds ++ cmd_blocks step_cmds SWEEP_STEPS ++ cleanup_cmds
  | some (k, m) =>
    setup_cmds ++ cmd_blocks step_cmds k ++ step_cmds.take m ++ cleanup_cmds

/-- The commanded instrument state after the run exits. -/
def final_state (interrupt : Option (Nat × Nat)) : DeviceState :=
  runCmds initState (run_cmds interrupt)

end Opamp

/-! # Theorems -/

/-! ## Helper lemmas -/

theorem runCmds_append (s : DeviceState) (l₁ l₂ : List DwfCmd) :
    runCmds s (l₁ ++ l₂) = runCmds (runCmds s l₁) l₂ :=
  List.foldl_append _ _ _ _

theorem runCmds_replicate_other (m : Nat) : ∀ s : DeviceState,
    runCmds s (List.replicate m DwfCmd.other) = s := by
  induction m with
  | zero => intro s; rfl
  | succ k ih => intro s; exact ih s

theorem runCmds_pc2_samples (n : Nat) (s : DeviceState) :
    runCmds s (PC2.sample_cmds n) = s :=
  runCmds_replicate_other (2 * n) s

theorem runCmds_pc2_config (s : DeviceState) :
    runCmds s PC2.config_cmds = { s with outputRunning := true } := rfl

theorem runCmds_pc2_block (k : Nat) : ∀ s : DeviceState,
    runCmds s (cmd_blocks (PC2.config_cmds ++ PC2.sample_cmds PC2.N_SAMPLES) k)
      = if k = 0 then s else { s with outputRunning := true } := by
  induction k with
  | zero => intro s; rfl
  | succ m ih =>
    intro s
    rw [if_neg (Nat.succ_ne_zero m)]
    show runCmds s ((PC2.config_cmds ++ PC2.sample_cmds PC2.N_SAMPLES) ++
      cmd_blocks (PC2.config_cmds ++ PC2.sample_cmds PC2.N_SAMPLES) m) = _
    rw [runCmds_append, runCmds_append, runCmds_pc2_config,
      runCmds_pc2_samples, ih]
    by_cases hm : m = 0
    · rw [if_pos hm]
    · rw [if_neg hm]

theorem pc2_final_none : PC2.final_state none = ⟨true, false, false⟩ := by
  unfold PC2.final_state PC2.run_cmds
  rw [runCmds_append, runCmds_pc2_block]
  rfl

theorem pc2_final_some (k j : Nat) :
    PC2.final_state (some (k, j)) = ⟨true, false, false⟩ := by
  unfold PC2.final_state PC2.run_cmds
  rw [runCmds_append, runCmds_append, runCmds_append, runCmds_pc2_block,
    runCmds_pc2_config, runCmds_pc2_samples]
  by_cases hk : k = 0
  · rw [if_pos hk]; rfl
  · rw [if_neg hk]; rfl

theorem runCmds_opamp_cleanup (s : DeviceState) :
    runCmds s Opamp.cleanup_cmds = ⟨false, false, false⟩ := rfl

theorem opamp_final (i : Option (Nat × Nat)) :
    Opamp.final_state i = ⟨false, false, false⟩ := by
  cases i with
  | none =>
    unfold Opamp.final_state Opamp.run_cmds
    rw [runCmds_append, runCmds_append]
    exact runCmds_opamp_cleanup _
  | some p =>
    obtain ⟨k, m⟩ := p
    unfold Opamp.final_state Opamp.run_cmds
    rw [runCmds_append, runCmds_append, runCmds_append]
    exact runCmds_opamp_cleanup _

/-! ## C1 -/

/-- C1: for every reference resistance R_ref > 0 and every sample pair
with V_in > V_x > 0, both voltage-divider reducers compute exactly
R_x = R_ref * V_x / (V_in - V_x), and the result is strictly positive. -/
theorem divider_resistance_exact_and_positive (rref vin vx : ℚ)
    (hr : 0 < rref) (hx : 0 < vx) (hlt : vx < vin) :
    PC2.measure_sample rref vin vx = some (rref * vx / (vin - vx)) ∧
      Min1.measure_resistance rref vin vx = some (rref * vx / (vin - vx)) ∧
      0 < rref * vx / (vin - vx) := by
  refine ⟨?_, ?_, div_pos (mul_pos hr hx) (sub_pos.mpr hlt)⟩
  · unfold PC2.measure_sample
    rw [if_pos ⟨hlt, hx⟩, mul_div_assoc]
  · unfold Min1.measure_resistance
    rw [if_neg (not_le.mpr (sub_pos.mpr hlt)), mul_div_assoc]

/-- Witness for C1 at R_ref = 10000, V_in = 2, V_x = 1. -/
theorem divider_resistance_witness :
    PC2.measure_sample 10000 2 1 = some (10000 * 1 / (2 - 1)) ∧
      Min1.measure_resistance 10000 2 1 = some (10000 * 1 / (2 - 1)) ∧
      0 < (10000 * 1 / (2 - 1) : ℚ) :=
  divider_resistance_exact_and_positive 10000 2 1 (by norm_num) (by norm_num)
    (by norm_num)

/-! ## C4 -/

/-- C4: for every sample with V_in ≤ V_x or V_x ≤ 0 the PC2 reducer
reports no finite resistance (the guard fails and the sample yields
`none`), the point is dropped from the collected list while the remaining
points of the run are still processed; the min_1 reducer's denominator
guard likewise reports failure when V_in ≤ V_x. -/
theorem divider_guard_drops_sample (rref vin vx : ℚ)
    (h : vin ≤ vx ∨ vx ≤ 0) (pre post : List ℚ) :
    PC2.measure_sample rref vin vx = none ∧
      PC2.measure_samples rref vin (pre ++ vx :: post) =
        PC2.measure_samples rref vin pre ++
          PC2.measure_samples rref vin post ∧
      (vin ≤ vx → Min1.measure_resistance rref vin vx = none) := by
  have hguard : ¬ (vin > vx ∧ vx > 0) := by
    rcases h with h | h
    · exact fun hc => absurd hc.1 (not_lt.mpr h)
    · exact fun hc => absurd hc.2 (not_lt.mpr h)
  have hnone : PC2.measure_sample rref vin vx = none := by
    unfold PC2.measure_sample
    exact if_neg hguard
  refine ⟨hnone, ?_, ?_⟩
  · unfold PC2.measure_samples
    rw [List.filterMap_append, List.filterMap_cons, hnone]
  · intro hle
    unfold Min1.measure_resistance
    rw [if_pos (sub_nonpos.mpr hle)]

/-- Witness for C4 at R_ref = 10000, V_in = 1, V_x = 2 (denominator < 0),
with one valid point before and after the dropped one. -/
theorem divider_guard_witness :
    PC2.measure_sample 10000 1 2 = none ∧
      PC2.measure_samples 10000 1 ([1/2] ++ 2 :: [1/4]) =
        PC2.measure_samples 10000 1 [1/2] ++
          PC2.measure_samples 10000 1 [1/4] ∧
      ((1 : ℚ) ≤ 2 → Min1.measure_resistance 10000 1 2 = none) :=
  divider_guard_drops_sample 10000 1 2 (Or.inl (by norm_num)) [1/2] [1/4]

/-! ## C6 -/

/-- C6: a completed run of the sweep produces exactly 4 results keyed by
set-point, in the order of `W1_VOLTAGES`, one entry per set-point,
whatever readings the environment supplies (so also when some samples at a
set-point hit the guard-failure path and are dropped). -/
theorem sweep_produces_four_keyed_results (rref : ℚ) (env : ℚ → List ℚ) :
    (PC2.measure_resistance_for_all_voltages rref env).map Prod.fst =
        PC2.W1_VOLTAGES ∧
      (PC2.measure_resistance_for_all_voltages rref env).length = 4 ∧
      ∀ p ∈ PC2.measure_resistance_for_all_voltages rref env,
        p.2 = PC2.measure_samples rref p.1 (env p.1) := by
  refine ⟨?_, ?_, ?_⟩
  · rfl
  · rfl
  · intro p hp
    simp only [PC2.measure_resistance_for_all_voltages, List.mem_map] at hp
    obtain ⟨vin, _, rfl⟩ := hp
    rfl

/-- Witness for C6 with an environment whose readings all fail the guard
at every set-point. -/
theorem sweep_results_witness :
    (PC2.measure_resistance_for_all_voltages PC2.R_REF (fun _ => [5, 0])).map
        Prod.fst = PC2.W1_VOLTAGES ∧
      (PC2.measure_resistance_for_all_voltages PC2.R_REF
          (fun _ => [5, 0])).length = 4 ∧
      ∀ p ∈ PC2.measure_resistance_for_all_voltages PC2.R_REF
          (fun _ => [5, 0]),
        p.2 = PC2.measure_samples PC2.R_REF p.1 [5, 0] :=
  sweep_produces_four_keyed_results PC2.R_REF (fun _ => [5, 0])

/-! ## C7 -/

/-- C7: on every non-empty sample sequence the reducer computes the
arithmetic mean (`n * mean = sum`) and the Bessel-corrected sample
variance (`(n - 1) * var = sum of squared deviations`, so the reported
standard deviation is its square root); on `[1, 2, 3, 4, 5]` the mean is
`3`, the sample variance is `5/2`, and the standard deviation is
`√(5/2) ≈ 1.5811`. -/
theorem mean_std_reducer_spec (l : List ℚ) (h : l ≠ []) :
    (l.length : ℚ) * np_mean l = l.sum ∧
      ((l.length : ℚ) - 1) * np_var_ddof1 l = (sq_devs l).sum ∧
      np_mean [1, 2, 3, 4, 5] = 3 ∧
      np_var_ddof1 [1, 2, 3, 4, 5] = 5 / 2 ∧
      Real.sqrt ((np_var_ddof1 [1, 2, 3, 4, 5] : ℚ) : ℝ) =
        Real.sqrt (5 / 2) := by
  have hne : l.length ≠ 0 := fun hc => h (List.length_eq_zero.mp hc)
  have hlen0 : (l.length : ℚ) ≠ 0 := Nat.cast_ne_zero.mpr hne
  have hmean : np_mean [1, 2, 3, 4, 5] = (3 : ℚ) := by
    norm_num [np_mean, List.sum_cons, List.sum_nil]
  have hvar : np_var_ddof1 [1, 2, 3, 4, 5] = (5 / 2 : ℚ) := by
    norm_num [np_var_ddof1, sq_devs, np_mean, List.sum_cons, List.sum_nil]
  refine ⟨?_, ?_, hmean, hvar, ?_⟩
  · rw [np_mean, mul_comm, div_mul_cancel₀ _ hlen0]
  · by_cases h1 : l.length = 1
    · obtain ⟨a, rfl⟩ := List.length_eq_one.mp h1
      norm_num [np_var_ddof1, sq_devs, np_mean]
    · have hz : ((l.length : ℚ) - 1) ≠ 0 :=
        sub_ne_zero.mpr (by exact_mod_cast h1)
      rw [np_var_ddof1, mul_comm, div_mul_cancel₀ _ hz]
  · rw [hvar]
    norm_num

/-- Witness for C7 at the synthetic sequence `[1, 2, 3, 4, 5]`. -/
theorem mean_std_reducer_witness :
    (([1, 2, 3, 4, 5] : List ℚ).length : ℚ) * np_mean [1, 2, 3, 4, 5] =
        ([1, 2, 3, 4, 5] : List ℚ).sum ∧
      ((([1, 2, 3, 4, 5] : List ℚ).length : ℚ) - 1) *
          np_var_ddof1 [1, 2, 3, 4, 5] = (sq_devs [1, 2, 3, 4, 5]).sum ∧
      np_mean [1, 2, 3, 4, 5] = 3 ∧
      np_var_ddof1 [1, 2, 3, 4, 5] = 5 / 2 ∧
      Real.sqrt ((np_var_ddof1 [1, 2, 3, 4, 5] : ℚ) : ℝ) =
        Real.sqrt (5 / 2) :=
  mean_std_reducer_spec [1, 2, 3, 4, 5] (List.cons_ne_nil _ _)

/-! ## C9 -/

theorem sense_current_length (r : ℚ) (va vb : List ℚ) :
    (sense_current r va vb).length = min va.length vb.length := by
  induction va generalizing vb with
  | nil => cases vb <;> simp [sense_current]
  | cons a va ih =>
    cases vb with
    | nil => simp [sense_current]
    | cons b vb =>
      simp only [sense_current, List.length_cons, ih]
      omega

theorem sense_current_getD (r : ℚ) (va vb : List ℚ) (i : Nat)
    (ha : i < va.length) (hb : i < vb.length) :
    (sense_current r va vb).getD i 0 = (va.getD i 0 - vb.getD i 0) / r := by
  induction va generalizing vb i with
  | nil => simp at ha
  | cons a va ih =>
    cases vb with
    | nil => simp at hb
    | cons b vb =>
      cases i with
      | zero => simp [sense_current]
      | succ n =>
        simp only [sense_current, List.getD_cons_succ]
        exact ih vb n (by simpa using ha) (by simpa using hb)

/-- C9: for every sense resistance R_sense > 0 and every pair of
equal-length channel buffers, the current reducer produces a buffer of the
same length whose i-th entry is exactly `(V_a[i] - V_b[i]) / R_sense`. -/
theorem sense_current_elementwise (r : ℚ) (_hr : 0 < r) (va vb : List ℚ)
    (hlen : va.length = vb.length) :
    (sense_current r va vb).length = va.length ∧
      ∀ i, i < va.length →
        (sense_current r va vb).getD i 0 =
          (va.getD i 0 - vb.getD i 0) / r := by
  constructor
  · rw [sense_current_length, hlen, min_self]
  · intro i hi
    exact sense_current_getD r va vb i hi (hlen ▸ hi)

/-- Witness for C9 at R_sense = 1000 over the buffers `[3, 2]` and
`[1, 1]`. -/
theorem sense_current_witness :
    (sense_current 1000 [3, 2] [1, 1]).length = ([3, 2] : List ℚ).length ∧
      ∀ i, i < ([3, 2] : List ℚ).length →
        (sense_current 1000 [3, 2] [1, 1]).getD i 0 =
          (([3, 2] : List ℚ).getD i 0 - ([1, 1] : List ℚ).getD i 0) / 1000 :=
  sense_current_elementwise 1000 (by norm_num) [3, 2] [1, 1] rfl

/-! ## C10 -/

theorem trim_length (l : List ℚ) : (Diode.trim l).length = l.length - 200 := by
  simp only [Diode.trim, List.length_take, List.length_drop]
  omega

theorem trim_getD (l : List ℚ) (k : Nat) (hk : k < l.length - 200) :
    (Diode.trim l).getD k 0 = l.getD (100 + k) 0 := by
  unfold Diode.trim
  rw [List.getD_eq_getElem?_getD, List.getD_eq_getElem?_getD,
    List.getElem?_take_of_lt hk, List.getElem?_drop]

/-- C10: on a successful run the diode I-V measurement returns two arrays
of equal length BUFFER_SIZE - 200, obtained by dropping the first 100 and
last 100 samples of each BUFFER_SIZE-sample buffer, preserving order: the
k-th returned voltage is the (100+k)-th acquired voltage and the k-th
returned current is `(v_in[100+k] - v_led[100+k]) / R_LIMIT`. -/
theorem iv_curve_trim_spec (vled vin : List ℚ)
    (h1 : vled.length = Diode.BUFFER_SIZE)
    (h2 : vin.length = Diode.BUFFER_SIZE) :
    (Diode.measure_led_iv_curve vled vin).1.length =
        Diode.BUFFER_SIZE - 200 ∧
      (Diode.measure_led_iv_curve vled vin).2.length =
        Diode.BUFFER_SIZE - 200 ∧
      ∀ k, k < Diode.BUFFER_SIZE - 200 →
        (Diode.measure_led_iv_curve vled vin).1.getD k 0 =
            vled.getD (100 + k) 0 ∧
          (Diode.measure_led_iv_curve vled vin).2.getD k 0 =
            (vin.getD (100 + k) 0 - vled.getD (100 + k) 0) /
              Diode.R_LIMIT := by
  have hcur : (sense_current Diode.R_LIMIT vin vled).length =
      Diode.BUFFER_SIZE := by
    rw [sense_current_length, h1, h2, min_self]
  refine ⟨?_, ?_, ?_⟩
  · rw [show (Diode.measure_led_iv_curve vled vin).1 = Diode.trim vled
        from rfl, trim_length, h1]
  · rw [show (Diode.measure_led_iv_curve vled vin).2 =
        Diode.trim (sense_current Diode.R_LIMIT vin vled) from rfl,
      trim_length, hcur]
  · intro k hk
    have hb : 100 + k < Diode.BUFFER_SIZE := by
      revert hk
      unfold Diode.BUFFER_SIZE
      omega
    constructor
    · rw [show (Diode.measure_led_iv_curve vled vin).1 = Diode.trim vled
          from rfl]
      exact trim_getD vled k (by rw [h1]; exact hk)
    · rw [show (Diode.measure_led_iv_curve vled vin).2 =
          Diode.trim (sense_current Diode.R_LIMIT vin vled) from rfl,
        trim_getD _ k (by rw [hcur]; exact hk)]
      exact sense_current_getD Diode.R_LIMIT vin vled (100 + k)
        (by rw [h2]; exact hb) (by rw [h1]; exact hb)

/-- Witness for C10 on constant buffers of length BUFFER_SIZE. -/
theorem iv_curve_trim_witness :
    (Diode.measure_led_iv_curve (List.replicate 50000 2)
          (List.replicate 50000 3)).1.length = Diode.BUFFER_SIZE - 200 ∧
      (Diode.measure_led_iv_curve (List.replicate 50000 2)
          (List.replicate 50000 3)).2.length = Diode.BUFFER_SIZE - 200 ∧
      ∀ k, k < Diode.BUFFER_SIZE - 200 →
        (Diode.measure_led_iv_curve (List.replicate 50000 2)
              (List.replicate 50000 3)).1.getD k 0 =
            (List.replicate 50000 (2 : ℚ)).getD (100 + k) 0 ∧
          (Diode.measure_led_iv_curve (List.replicate 50000 2)
              (List.replicate 50000 3)).2.getD k 0 =
            ((List.replicate 50000 (3 : ℚ)).getD (100 + k) 0 -
                (List.replicate 50000 (2 : ℚ)).getD (100 + k) 0) /
              Diode.R_LIMIT :=
  iv_curve_trim_spec (List.replicate 50000 2) (List.replicate 50000 3)
    (by rw [List.length_replicate]; rfl) (by rw [List.length_replicate]; rfl)

/-! ## C3 -/

theorem decay_hit_lt (v : List ℚ) (i : Nat) (h : PC3min.decay_hit v i) :
    i + 1 < v.length := by
  by_contra hc
  push_neg at hc
  have h0 : v.getD (i + 1) 0 = 0 := by
    rw [List.getD_eq_getElem?_getD, List.getElem?_eq_none hc]
    rfl
  rw [PC3min.decay_hit, h0, div_zero] at h
  exact absurd h (by norm_num [PC3min.DECAY_THRESHOLD])

theorem decay_find_aux_eq_some (v : List ℚ) (j : Nat)
    (hj : PC3min.decay_hit v j) (hmin : ∀ k < j, ¬ PC3min.decay_hit v k) :
    ∀ n i, i ≤ j → j < i + n → PC3min.decay_find_aux v i n = some j := by
  intro n
  induction n with
  | zero => intro i _ hlt; omega
  | succ m ih =>
    intro i hij hlt
    unfold PC3min.decay_find_aux
    rcases Nat.eq_or_lt_of_le hij with rfl | hlt2
    · rw [if_pos hj]
    · rw [if_neg (hmin i hlt2)]
      exact ih (i + 1) hlt2 (by omega)

theorem decay_find_aux_eq_none (v : List ℚ)
    (h : ∀ k, ¬ PC3min.decay_hit v k) :
    ∀ n i, PC3min.decay_find_aux v i n = none := by
  intro n
  induction n with
  | zero => intro i; rfl
  | succ m ih =>
    intro i
    unfold PC3min.decay_find_aux
    rw [if_neg (h i)]
    exact ih (i + 1)

theorem decay_find_aux_some_hit (v : List ℚ) :
    ∀ n i j, PC3min.decay_find_aux v i n = some j → PC3min.decay_hit v j := by
  intro n
  induction n with
  | zero => intro i j h; exact absurd h (by simp [PC3min.decay_find_aux])
  | succ m ih =>
    intro i j h
    unfold PC3min.decay_find_aux at h
    by_cases hc : PC3min.decay_hit v i
    · rw [if_pos hc] at h
      cases h
      exact hc
    · rw [if_neg hc] at h
      exact ih (i + 1) j h

/-- C3: for every source array of length at least 2, the decay-start
detector returns the first index whose ratio to its successor exceeds
1.000005 when one exists; when no index satisfies the threshold (an
all-flat array) the Python loop falls through with `i = len - 2`, so the
fit range is the final two samples — and in every case the fit range
`v[i:]` holds at least 2 samples, never a degenerate empty range. -/
theorem decay_start_detects (v : List ℚ) (hlen : 2 ≤ v.length) :
    (∀ j, PC3min.decay_hit v j → (∀ k < j, ¬ PC3min.decay_hit v k) →
        PC3min.decay_start v = some j) ∧
      ((∀ k, ¬ PC3min.decay_hit v k) →
        PC3min.decay_start v = some (v.length - 2) ∧
          (v.drop (v.length - 2)).length = 2) ∧
      ∀ d, PC3min.decay_start v = some d → 2 ≤ (v.drop d).length := by
  have hnlt : ¬ v.length < 2 := not_lt.mpr hlen
  refine ⟨?_, ?_, ?_⟩
  · intro j hj hmin
    have hjlt : j + 1 < v.length := decay_hit_lt v j hj
    rw [PC3min.decay_start, if_neg hnlt,
      decay_find_aux_eq_some v j hj hmin (v.length - 1) 0 (Nat.zero_le j)
        (by omega)]
    rfl
  · intro hnone
    rw [PC3min.decay_start, if_neg hnlt,
      decay_find_aux_eq_none v hnone (v.length - 1) 0]
    exact ⟨rfl, by rw [List.length_drop]; omega⟩
  · intro d hd
    rw [PC3min.decay_start, if_neg hnlt] at hd
    have hdle : d + 2 ≤ v.length := by
      cases hfind : PC3min.decay_find_aux v 0 (v.length - 1) with
      | none =>
        rw [hfind, Option.getD_none] at hd
        cases hd
        omega
      | some j =>
        rw [hfind, Option.getD_some] at hd
        have hjd := Option.some.inj hd
        have hhit := decay_hit_lt v j
          (decay_find_aux_some_hit v (v.length - 1) 0 j hfind)
        omega
    rw [List.length_drop]
    omega

/-- Witness for C3 on the array `[4, 4, 2, 1]`, flat for its first half
and then strictly decreasing: the detector stops at index 1, the first
ratio above the threshold. -/
theorem decay_start_witness :
    (∀ j, PC3min.decay_hit [4, 4, 2, 1] j →
        (∀ k < j, ¬ PC3min.decay_hit [4, 4, 2, 1] k) →
        PC3min.decay_start [4, 4, 2, 1] = some j) ∧
      ((∀ k, ¬ PC3min.decay_hit [4, 4, 2, 1] k) →
        PC3min.decay_start [4, 4, 2, 1] =
            some (([4, 4, 2, 1] : List ℚ).length - 2) ∧
          (([4, 4, 2, 1] : List ℚ).drop
              (([4, 4, 2, 1] : List ℚ).length - 2)).length = 2) ∧
      ∀ d, PC3min.decay_start [4, 4, 2, 1] = some d →
        2 ≤ (([4, 4, 2, 1] : List ℚ).drop d).length :=
  decay_start_detects [4, 4, 2, 1] (by norm_num)

/-! ## C8 -/

theorem poll_no_read (s : Nat → Bool) : ∀ n k ch,
    DwfEvent.bufferRead ch ∉ (poll_until_done s k n).1 := by
  intro n
  induction n with
  | zero => intro k ch h; exact absurd h (List.not_mem_nil _)
  | succ m ih =>
    intro k ch
    unfold poll_until_done
    by_cases hs : s k
    · rw [if_pos hs]
      intro h
      rcases List.mem_singleton.mp h with h
      exact DwfEvent.noConfusion h
    · rw [if_neg hs]
      intro h
      rcases List.mem_cons.mp h with h | h
      · exact DwfEvent.noConfusion h
      · exact ih (k + 1) ch h

theorem poll_done_mem (s : Nat → Bool) : ∀ n k,
    (poll_until_done s k n).2 = true →
      DwfEvent.statusPoll true ∈ (poll_until_done s k n).1 := by
  intro n
  induction n with
  | zero => intro k h; exact absurd h (Bool.false_ne_true)
  | succ m ih =>
    intro k h
    unfold poll_until_done at h ⊢
    by_cases hs : s k
    · rw [if_pos hs]
      exact List.mem_singleton_self _
    · rw [if_neg hs] at h ⊢
      exact List.mem_cons_of_mem _ (ih (k + 1) h)

theorem mem_pre_of_split {α : Type} (a : α) :
    ∀ (t su pre post : List α), a ∉ t → t ++ su = pre ++ a :: post →
      ∀ x ∈ t, x ∈ pre := by
  intro t
  induction t with
  | nil => intro su pre post _ _ x hx; exact absurd hx (List.not_mem_nil x)
  | cons y t ih =>
    intro su pre post ha hsplit x hx
    cases pre with
    | nil =>
      simp only [List.cons_append, List.nil_append] at hsplit
      injection hsplit with h1 _
      exact absurd (h1 ▸ List.mem_cons_self y t) ha
    | cons p pre' =>
      simp only [List.cons_append] at hsplit
      injection hsplit with h1 h2
      rcases List.mem_cons.mp hx with rfl | hx'
      · rw [h1]
        exact List.mem_cons_self _ _
      · exact List.mem_cons_of_mem _
          (ih su pre' post (fun hc => ha (List.mem_cons_of_mem _ hc)) h2 x hx')

/-- C8: along every execution of the acquisition loop, a buffer-read event
occurs only after a status poll has returned the terminal done state:
whenever the trace splits around a buffer read, a done poll lies strictly
before it. -/
theorem buffer_read_after_done_poll (statusSeq : Nat → Bool) (fuel : Nat)
    (pre post : List DwfEvent) (ch : Nat)
    (hsplit : acquisition_trace statusSeq fuel =
      pre ++ DwfEvent.bufferRead ch :: post) :
    DwfEvent.statusPoll true ∈ pre := by
  unfold acquisition_trace at hsplit
  by_cases hok : (poll_until_done statusSeq 0 fuel).2
  · rw [if_pos hok] at hsplit
    exact mem_pre_of_split _ _ _ pre post (poll_no_read statusSeq fuel 0 ch)
      hsplit _ (poll_done_mem statusSeq fuel 0 hok)
  · rw [if_neg hok, List.append_nil] at hsplit
    have hmem : DwfEvent.bufferRead ch ∈
        (poll_until_done statusSeq 0 fuel).1 := by
      rw [hsplit]
      exact List.mem_append_right _ (List.mem_cons_self _ _)
    exact absurd hmem (poll_no_read statusSeq fuel 0 ch)

/-- Witness for C8: an environment that reports done on the first poll;
the trace is one done poll followed by the two buffer reads. -/
theorem buffer_read_witness :
    DwfEvent.statusPoll true ∈ [DwfEvent.statusPoll true] :=
  buffer_read_after_done_poll (fun _ => true) 1 [DwfEvent.statusPoll true]
    [DwfEvent.bufferRead 1] 0 rfl

/-! ## C2 -/

theorem mem_cmd_blocks {c : List DwfCmd} {cmd : DwfCmd} :
    ∀ k, cmd ∈ cmd_blocks c k → cmd ∈ c := by
  intro k
  induction k with
  | zero => intro h; exact absurd h (List.not_mem_nil _)
  | succ m ih =>
    intro h
    rcases List.mem_append.mp h with h | h
    · exact h
    · exact ih h

/-- C2 counterexample: the claim fails on the PC2 sweep — no command of
any exit path ever stops the stimulus output (`FDwfAnalogOutConfigure`
with `start = False` never appears, the cleanup only closes the handle),
so the final commanded state of the normal-completion path still has the
output running rather than disabled. -/
theorem pc2_output_never_disabled :
    (PC2.final_state none).outputRunning = true ∧
      ∀ cmd ∈ PC2.run_cmds none, cmd ≠ DwfCmd.analogOutConfigure false := by
  constructor
  · rw [pc2_final_none]
  · intro cmd hmem
    unfold PC2.run_cmds at hmem
    rcases List.mem_append.mp hmem with h | h
    · rcases List.mem_append.mp (mem_cmd_blocks _ h) with h' | h'
      · have hall : ∀ x ∈ PC2.config_cmds,
            x ≠ DwfCmd.analogOutConfigure false := by decide
        exact hall cmd h'
      · have heq := List.eq_of_mem_replicate h'
        subst heq
        exact fun hc => DwfCmd.noConfusion hc
    · have heq := List.mem_singleton.mp h
      subst heq
      exact fun hc => DwfCmd.noConfusion hc

/-- C2 (amended): on every exit path — normal completion or an
interruption injected in the armed/polling/reading stages — the device
handle is released and the post-interruption commanded instrument state
equals the post-normal-completion state; the op-amp run additionally
commands the stimulus output and the supply rails off on every exit path,
while the PC2 sweep's cleanup only closes the handle, leaving the
stimulus output commanded on. -/
theorem cleanup_state_path_independent (k j ko m : Nat) :
    PC2.final_state (some (k, j)) = PC2.final_state none ∧
      (PC2.final_state (some (k, j))).handleOpen = false ∧
      (PC2.final_state none).handleOpen = false ∧
      Opamp.final_state (some (ko, m)) = Opamp.final_state none ∧
      Opamp.final_state (some (ko, m)) = ⟨false, false, false⟩ := by
  refine ⟨?_, ?_, ?_, ?_, opamp_final (some (ko, m))⟩
  · rw [pc2_final_some, pc2_final_none]
  · rw [pc2_final_some]
  · rw [pc2_final_none]
  · rw [opamp_final (some (ko, m)), opamp_final none]

/-- Witness for C2 (amended) at an interruption in the second set-point's
sampling loop and in the third sweep step of the op-amp run. -/
theorem cleanup_state_witness :
    PC2.final_state (some (1, 7)) = PC2.final_state none ∧
      (PC2.final_state (some (1, 7))).handleOpen = false ∧
      (PC2.final_state none).handleOpen = false ∧
      Opamp.final_state (some (2, 3)) = Opamp.final_state none ∧
      Opamp.final_state (some (2, 3)) = ⟨false, false, false⟩ :=
  cleanup_state_path_independent 1 7 2 3

/-! ## C5 -/

/-- C5: the claim holds for min_1's `measure_resistance` — an interruption
during polling or reading is caught, cleanup runs and the failure
indicator `None` is returned — but it fails on `measure_rc_circuit`
(PC3_test_min.py): the `except KeyboardInterrupt` handler does catch the
interruption and the `finally` block does close the device, yet the
`return tmp` inside that `finally` reads the local `tmp`, which an
interruption in the armed/polling/reading stages leaves unassigned, so
the function exits by raising `UnboundLocalError` instead of returning a
failure indicator. -/
theorem rc_interrupt_raises_unbound_local :
    (∀ st : PC3min.RcStage, ∀ fit : ℚ × ℚ,
        PC3min.measure_rc_circuit_exit (some st) fit =
          (PC3min.PyExit.exc "UnboundLocalError", true)) ∧
      PC3min.measure_rc_circuit_exit (some PC3min.RcStage.polling)
          (2, 1/100) = (PC3min.PyExit.exc "UnboundLocalError", true) ∧
      ∀ st : Min1.Stage, ∀ r : Option ℚ,
        Min1.measure_resistance_exit (some st) r = (none, true) :=
  ⟨fun _ _ => rfl, rfl, fun _ _ => rfl⟩
